import Mathlib

/-!
# Verification of the ER-Boss-Checker core logic

Shallow embedding of the pure core of `src/main.rs`: the filter engine
(`filter_entries`), the table-model construction (`load_tables_from_file`),
the region-index derivation (`extract_regions`), the save routine
(`MyApp::save_to_disk`) and the first-run config bootstrap
(`Config::make_or_load_from_file`).

Strings are modelled by Lean `String` (a sequence of Unicode scalar values,
matching Rust `String`; byte-lexicographic order on valid UTF-8 coincides
with codepoint-lexicographic order).  The `HashSet<(String, String)>`
completion set is modelled by a `List (String × String)` used purely through
membership, with set equality stated extensionally, since the Rust code only
uses `contains` / `insert` on it.
-/

namespace BossChecker

/-- `TableEntry` from `src/main.rs` lines 92–97: one row of the table. -/
structure TableEntry where
  region : String
  name : String
  checked : Bool
  visible : Bool
deriving DecidableEq, Repr

/-- Rust `str::contains(&needle)`: substring test.  On valid UTF-8, the
byte-level search Rust performs matches exactly when the needle's scalar-value
sequence is an infix of the haystack's (UTF-8 is self-synchronising). -/
def strContains (hay needle : String) : Bool :=
  decide (List.IsInfix needle.data hay.data)

/-- Rust `str::to_lowercase`, modelled as a per-scalar-value map.  (Rust uses
the Unicode lowercase mapping; on ASCII data the two agree, and every claim
below applies the same map uniformly to both sides of each comparison, so the
choice of character map is immaterial to the claims.) -/
def lower (s : String) : String :=
  String.mk (s.data.map Char.toLower)

/-- Body of the per-entry loop of `filter_entries` (`src/main.rs` lines 29–44):
first `visible` is set from the region comparison, then `&=`-combined with the
case-insensitive substring test of the search term against name or region. -/
def filter_entry (search_region search_boss : String) (entry : TableEntry) : TableEntry :=
  let term := lower search_boss
  let e1 :=
    if search_region = "All" ∨ entry.region = search_region then
      { entry with visible := true }
    else
      { entry with visible := false }
  if strContains (lower e1.name) term || strContains (lower e1.region) term then
    { e1 with visible := e1.visible && true }
  else
    { e1 with visible := e1.visible && false }

/-- `filter_entries` (`src/main.rs` lines 27–45): recompute `visible` for
every row in place; modelled functionally as a map over the row list. -/
def filter_entries (entries : List TableEntry) (search_region search_boss : String) :
    List TableEntry :=
  entries.map (filter_entry search_region search_boss)

/-- The spec's region-match predicate (§4.3): selector is "All" or the row's
region equals the selector, exact and case-sensitive. -/
def region_match (region_selector : String) (entry : TableEntry) : Bool :=
  decide (region_selector = "All" ∨ entry.region = region_selector)

/-- The spec's text-match predicate (§4.3): the lowercased search term is a
substring of the lowercased name or of the lowercased region. -/
def text_match (search_term : String) (entry : TableEntry) : Bool :=
  strContains (lower entry.name) (lower search_term) ||
    strContains (lower entry.region) (lower search_term)

example :
    filter_entries [⟨"Forest", "Wolf King", false, true⟩] "All" "wolf" =
      [⟨"Forest", "Wolf King", false, true⟩] := by decide

example :
    filter_entries [⟨"Forest", "Wolf King", false, true⟩] "All" "bear" =
      [⟨"Forest", "Wolf King", false, false⟩] := by decide

example :
    filter_entries [⟨"Forest", "Wolf King", false, true⟩] "Cave" "" =
      [⟨"Forest", "Wolf King", false, false⟩] := by decide

/-- `RegionEntry` (`src/main.rs` lines 47–51): one catalog entry, a region
with its ordered boss list. -/
structure RegionEntry where
  region : String
  bosses : List String
deriving DecidableEq, Repr

/-- The (region, name) pairs of a catalog, in catalog order: regions in input
order, bosses within a region in their listed order. -/
def catalogPairs (boss_data : List RegionEntry) : List (String × String) :=
  boss_data.flatMap (fun d => d.bosses.map (fun b => (d.region, b)))

/-- Loop of `load_tables_from_file` (`src/main.rs` lines 60–75), after the
file read and JSON parse which this embedding takes as the already-parsed
`boss_data` list: flatten the catalog into one row per boss, `checked` set
from membership of the (region, name) pair in the completion set, `visible`
initialised `true`.  The `HashSet<(String, String)>` completion set is
modelled as a list used through membership. -/
def load_tables_from_file (boss_data : List RegionEntry)
    (completed : List (String × String)) : List TableEntry :=
  boss_data.flatMap (fun d => d.bosses.map (fun b =>
    { region := d.region, name := b, visible := true,
      checked := decide ((d.region, b) ∈ completed) }))

/-- Lexicographic ≤ on scalar-value sequences. -/
def charListLE : List Char → List Char → Bool
  | [], _ => true
  | _ :: _, [] => false
  | a :: as, b :: bs =>
    if a < b then true else if b < a then false else charListLE as bs

/-- Rust's `Ord` on `String`, as used by `Vec::sort`: lexicographic
comparison of the byte sequences, which on valid UTF-8 coincides with
lexicographic comparison of the scalar-value sequences (case-sensitive). -/
def strLE (a b : String) : Prop :=
  charListLE a.data b.data = true

instance strLE.instDecidableRel : DecidableRel strLE :=
  fun a b => inferInstanceAs (Decidable (charListLE a.data b.data = true))

/-- `extract_regions` (`src/main.rs` lines 78–90): a `HashSet` seeded with
"All" receives every row's region; the set is collected into a vector and
sorted.  Because the final list is sorted under the total order on strings
and duplicate-free, it is the unique sorted duplicate-free enumeration of the
set {"All"} ∪ regions, independent of the hash set's iteration order; the
embedding produces that list as `dedup` followed by `insertionSort`. -/
def extract_regions (entries : List TableEntry) : List String :=
  List.insertionSort strLE (("All" :: entries.map (fun e => e.region)).dedup)

/-- `HashSet::insert` on the completion set, for a list-with-membership model
of the hash set. -/
def hashSetInsert (p : String × String) (s : List (String × String)) :
    List (String × String) :=
  if p ∈ s then s else p :: s

/-- Completion set computed by `MyApp::save_to_disk` (`src/main.rs` lines
196–201): fold over the rows, inserting the (region, name) pair of every
checked row into an initially empty set. -/
def save_to_disk (entries : List TableEntry) : List (String × String) :=
  entries.foldl
    (fun s e => if e.checked then hashSetInsert (e.region, e.name) s else s) []

/-- Open options for a file write, as in `File::options()` builders. -/
structure OpenMode where
  writeFlag : Bool
  truncateFlag : Bool
deriving DecidableEq, Repr

/-- The options `save_to_disk` opens the save file with (`src/main.rs` line
204): `File::options().write(true).truncate(true)`. -/
def save_open_mode : OpenMode :=
  { writeFlag := true, truncateFlag := true }

/-- Bytes of the file after opening with `mode` and writing `new` from the
start: with `truncate` the previous contents are discarded first, so the file
holds exactly the written bytes; without it the write would only patch the
head of the file, leaving the tail of a longer previous content in place. -/
def write_with_mode (mode : OpenMode) (prev new : List Char) : List Char :=
  if mode.truncateFlag then new else new ++ prev.drop new.length

/-- `Config` (`src/main.rs` lines 99–103). -/
structure Config where
  checklist_path : String
  default_save : String
deriving DecidableEq, Repr

/-- `Config::default` (`src/main.rs` lines 105–112). -/
def Config.defaultConfig : Config :=
  { checklist_path := "boss_data.json", default_save := "default_save.json" }

/-- The JSON document `serde_json::to_string(&Config::default())` emits:
no whitespace, fields in declaration order. -/
def defaultConfigJson : String :=
  "\x7b\"checklist_path\":\"boss_data.json\",\"default_save\":\"default_save.json\"\x7d"

/-- Consume one expected character from the input. -/
def expectChar (c : Char) : List Char → Option (List Char)
  | [] => none
  | d :: rest => if d = c then some rest else none

/-- Consume the body of a JSON string after its opening quote, accumulating
characters until the closing quote; escape sequences are rejected (none occur
in the documents this development parses). -/
def parseJsonStringAux : List Char → List Char → Option (String × List Char)
  | [], _ => none
  | c :: rest, acc =>
    if c = '"' then some (String.mk acc.reverse, rest)
    else if c = '\\' then none
    else parseJsonStringAux rest (c :: acc)

/-- Consume one JSON string literal. -/
def parseJsonString : List Char → Option (String × List Char)
  | [] => none
  | c :: rest => if c = '"' then parseJsonStringAux rest [] else none

/-- Modelled from the spec: `serde_json::from_str::<Config>` — serde_json is
library code, not part of this repository; spec §6 gives the config document
shape `\x7b "checklist_path": string, "default_save": string \x7d` and §7 makes a
parse failure fatal.  The parser is restricted to the whitespace-free,
escape-free object form with fields in declaration order, which is exactly
the form `serde_json::to_string` emits and the only form the bootstrap claim
feeds it. -/
def parseConfig (s : String) : Option Config := do
  let r1 ← expectChar '\x7b' s.data
  let (k1, r2) ← parseJsonString r1
  let r3 ← expectChar ':' r2
  let (v1, r4) ← parseJsonString r3
  let r5 ← expectChar ',' r4
  let (k2, r6) ← parseJsonString r5
  let r7 ← expectChar ':' r6
  let (v2, r8) ← parseJsonString r7
  let r9 ← expectChar '\x7d' r8
  if k1 = "checklist_path" ∧ k2 = "default_save" ∧ r9 = [] then
    some { checklist_path := v1, default_save := v2 }
  else
    none

/-- Fate of the bootstrap `file.write_all` call: success, or an I/O error
raised after the first `n` bytes were written.  A failing `write_all` always
leaves a strict prefix of its buffer in the file (it returns `Ok` once the
whole buffer is written), so the failure cases of interest have `n` below the
buffer length. -/
inductive WriteOutcome where
  | success : WriteOutcome
  | failAfter : Nat → WriteOutcome
deriving DecidableEq, Repr

/-- Observable result of `Config::make_or_load_from_file`: `outcome = some c`
means the function returns config `c`; `outcome = none` means one of its
`.unwrap()` calls panicked, halting startup.  `stderrLog` records `eprint!`
output and `fileContent` the config file's final content. -/
structure BootstrapResult where
  outcome : Option Config
  stderrLog : List String
  fileContent : Option String
deriving DecidableEq, Repr

/-- `Config::make_or_load_from_file` (`src/main.rs` lines 115–139).  When the
config file is absent it is created empty and the serialized default config
is written to it, a write failure being only `eprint!`-logged (lines
125–130); in every case the file is then re-opened, read, and parsed with
`.unwrap()` (lines 133–136).  `existing` is the config file's content before
the call (`none` = absent) and `w` the fate of the bootstrap write; creation
and re-opening of the file are taken to succeed (their `.unwrap()`s are not
at issue in any claim). -/
def make_or_load_from_file (existing : Option String) (w : WriteOutcome) :
    BootstrapResult :=
  match existing with
  | some content =>
    { outcome := parseConfig content, stderrLog := [], fileContent := some content }
  | none =>
    match w with
    | WriteOutcome.success =>
      { outcome := parseConfig defaultConfigJson
        stderrLog := []
        fileContent := some defaultConfigJson }
    | WriteOutcome.failAfter n =>
      { outcome := parseConfig (String.mk (defaultConfigJson.data.take n))
        stderrLog := ["io error"]
        fileContent := some (String.mk (defaultConfigJson.data.take n)) }

example : parseConfig defaultConfigJson = some Config.defaultConfig := by decide

example : parseConfig (String.mk (defaultConfigJson.data.take 10)) = none := by
  decide

/-! ## Filter engine -/

/-- The per-entry effect of the filter loop: only `visible` changes, and it
becomes the conjunction of the region match and the text match. -/
theorem filter_entry_eq (search_region search_boss : String) (entry : TableEntry) :
    filter_entry search_region search_boss entry =
      { entry with visible :=
          region_match search_region entry && text_match search_boss entry } := by
  unfold filter_entry region_match text_match
  by_cases h1 : search_region = "All" ∨ entry.region = search_region <;>
    by_cases h2 :
      (strContains (lower entry.name) (lower search_boss) ||
        strContains (lower entry.region) (lower search_boss)) = true <;>
    simp_all

/-- C1: after `filter_entries`, each row's `visible` flag is exactly the
conjunction of the spec's region match ("All" or exact case-sensitive region
equality) and the spec's text match (the lowercased search term is a
substring of the lowercased name or of the lowercased region); no other field
changes. -/
theorem filter_entries_visibility_spec (entries : List TableEntry)
    (region_selector search_term : String) :
    filter_entries entries region_selector search_term =
      entries.map (fun e =>
        { e with visible :=
            region_match region_selector e && text_match search_term e }) := by
  unfold filter_entries
  congr 1
  funext e
  exact filter_entry_eq region_selector search_term e

/-- C8: `filter_entries` mutates only the `visible` field — the list length
and every row's `region`, `name` and `checked` fields are unchanged. -/
theorem filter_entries_frame (entries : List TableEntry)
    (region_selector search_term : String) :
    (filter_entries entries region_selector search_term).length = entries.length ∧
      (filter_entries entries region_selector search_term).map
          (fun e => (e.region, e.name, e.checked)) =
        entries.map (fun e => (e.region, e.name, e.checked)) := by
  constructor
  · simp [filter_entries]
  · simp only [filter_entries, List.map_map]
    congr 1
    funext e
    rw [Function.comp_apply, filter_entry_eq]

/-- C9: `filter_entries` is idempotent — a second application with the same
region selector and search term yields the same rows as a single one. -/
theorem filter_entries_idempotent (entries : List TableEntry)
    (region_selector search_term : String) :
    filter_entries (filter_entries entries region_selector search_term)
        region_selector search_term =
      filter_entries entries region_selector search_term := by
  simp only [filter_entries, List.map_map]
  congr 1
  funext e
  rw [Function.comp_apply, filter_entry_eq, filter_entry_eq]
  simp [region_match, text_match]

/-- C10: the visibility the filter assigns to a row depends only on the row's
`region` and `name` and the two filter strings — rows agreeing on those
receive the same visibility whatever their `checked` flags and prior
`visible` values were (noninterference from `checked` and prior `visible`). -/
theorem filter_entry_noninterference (region_selector search_term r n : String)
    (c1 v1 c2 v2 : Bool) :
    (filter_entry region_selector search_term ⟨r, n, c1, v1⟩).visible =
      (filter_entry region_selector search_term ⟨r, n, c2, v2⟩).visible := by
  rw [filter_entry_eq, filter_entry_eq]
  simp [region_match, text_match]

/-- C7: with a region selector different from "All", every row left visible
by `filter_entries` has exactly that region; in particular, when no row's
region equals the selector, every row ends up invisible whatever the search
term. -/
theorem filter_entries_region_restrict (entries : List TableEntry)
    (region_selector search_term : String) (h : region_selector ≠ "All") :
    (∀ e ∈ filter_entries entries region_selector search_term,
        e.visible = true → e.region = region_selector) ∧
      ((∀ e ∈ entries, e.region ≠ region_selector) →
        ∀ e ∈ filter_entries entries region_selector search_term,
          e.visible = false) := by
  constructor
  · intro e he hv
    rcases List.mem_map.1 he with ⟨e0, _, rfl⟩
    rw [filter_entry_eq] at hv ⊢
    simp only [region_match, Bool.and_eq_true, decide_eq_true_eq] at hv
    rcases hv.1 with h1 | h1
    · exact absurd h1 h
    · simpa using h1
  · intro hnone e he
    rcases List.mem_map.1 he with ⟨e0, he0, rfl⟩
    rw [filter_entry_eq]
    simp only [region_match]
    have : ¬(region_selector = "All" ∨ e0.region = region_selector) := by
      rintro (h1 | h1)
      · exact h h1
      · exact hnone e0 he0 h1
    simp [this]

/-- Witness for C7 at a concrete input: selector "Cave", one "Forest" row. -/
theorem filter_entries_region_restrict_witness :
    ("Cave" : String) ≠ "All" ∧
      ((∀ e ∈ filter_entries [⟨"Forest", "Wolf King", false, true⟩] "Cave" "wolf",
          e.visible = true → e.region = "Cave") ∧
        ((∀ e ∈ [(⟨"Forest", "Wolf King", false, true⟩ : TableEntry)],
            e.region ≠ "Cave") →
          ∀ e ∈ filter_entries [⟨"Forest", "Wolf King", false, true⟩] "Cave" "wolf",
            e.visible = false)) :=
  ⟨by decide, filter_entries_region_restrict _ _ _ (by decide)⟩

/-! ## Table model and save routine -/

/-- Row construction is the row-builder mapped over the catalog's (region,
name) pairs in catalog order. -/
theorem load_tables_eq_map (boss_data : List RegionEntry)
    (completed : List (String × String)) :
    load_tables_from_file boss_data completed =
      (catalogPairs boss_data).map
        (fun p => ⟨p.1, p.2, decide (p ∈ completed), true⟩) := by
  induction boss_data with
  | nil => rfl
  | cons d rest ih =>
    simp only [load_tables_from_file, catalogPairs, List.flatMap_cons, List.map_append,
      List.map_map] at ih ⊢
    rw [ih]
    congr 1

/-- C5: `load_tables_from_file` produces exactly one row per boss occurrence
in catalog order — projecting (region, name) out of the rows gives back the
catalog's pair list — with `checked` set iff the pair belongs to the
completion set and `visible` initialised `true`. -/
theorem load_tables_spec (boss_data : List RegionEntry)
    (completed : List (String × String)) :
    (load_tables_from_file boss_data completed).map (fun e => (e.region, e.name)) =
        catalogPairs boss_data ∧
      ∀ e ∈ load_tables_from_file boss_data completed,
        e.visible = true ∧ (e.checked = true ↔ (e.region, e.name) ∈ completed) := by
  constructor
  · rw [load_tables_eq_map, List.map_map]
    have hid :
        ((fun e : TableEntry => (e.region, e.name)) ∘
          fun p : String × String =>
            (⟨p.1, p.2, decide (p ∈ completed), true⟩ : TableEntry)) = id := by
      funext p
      rfl
    rw [hid, List.map_id]
  · intro e he
    rw [load_tables_eq_map] at he
    rcases List.mem_map.1 he with ⟨p, _, rfl⟩
    simp

/-- Membership in the list model of `HashSet::insert`. -/
theorem mem_hashSetInsert (p q : String × String) (s : List (String × String)) :
    p ∈ hashSetInsert q s ↔ q = p ∨ p ∈ s := by
  unfold hashSetInsert
  by_cases h : q ∈ s
  · rw [if_pos h]
    constructor
    · exact Or.inr
    · rintro (rfl | hp)
      · exact h
      · exact hp
  · rw [if_neg h]
    simp [eq_comm]

/-- Membership after folding checked rows into an accumulator set: a pair is
present iff it was already in the accumulator or some checked row carries it. -/
theorem mem_save_foldl (entries : List TableEntry)
    (acc : List (String × String)) (p : String × String) :
    (p ∈ entries.foldl
        (fun s e => if e.checked then hashSetInsert (e.region, e.name) s else s)
        acc) ↔
      p ∈ acc ∨ ∃ e ∈ entries, e.checked = true ∧ (e.region, e.name) = p := by
  induction entries generalizing acc with
  | nil => simp
  | cons e rest ih =>
    rw [List.foldl_cons, ih, List.exists_mem_cons_iff]
    by_cases hc : e.checked = true
    · rw [if_pos hc, mem_hashSetInsert]
      simp only [hc, true_and]
      tauto
    · rw [if_neg hc]
      simp only [hc, false_and]
      tauto

/-- The completion set `save_to_disk` computes, characterised by membership. -/
theorem mem_save_to_disk (entries : List TableEntry) (p : String × String) :
    p ∈ save_to_disk entries ↔
      ∃ e ∈ entries, e.checked = true ∧ (e.region, e.name) = p := by
  rw [save_to_disk, mem_save_foldl]
  simp

/-- C3: the completion set written by `save_to_disk` contains a pair iff some
row with that region and name is checked, and — because the save file is
opened with `truncate` — the written bytes replace the file's entire previous
contents rather than patching them. -/
theorem save_to_disk_spec (entries : List TableEntry) :
    (∀ p : String × String,
        p ∈ save_to_disk entries ↔
          ∃ e ∈ entries, e.checked = true ∧ e.region = p.1 ∧ e.name = p.2) ∧
      ∀ prev new : List Char, write_with_mode save_open_mode prev new = new := by
  constructor
  · intro p
    rw [mem_save_to_disk]
    constructor
    · rintro ⟨e, he, hch, rfl⟩
      exact ⟨e, he, hch, rfl, rfl⟩
    · rintro ⟨e, he, hch, h1, h2⟩
      exact ⟨e, he, hch, by rw [h1, h2]⟩
  · intro prev new
    rfl

/-- Counterexample to C2 as stated: with the empty catalog and the completion
set {("a", "b")}, building rows and re-deriving the completion set yields the
empty set, not the original — the round-trip drops every pair absent from the
catalog. -/
theorem roundtrip_cex :
    ¬ (∀ p : String × String,
        p ∈ save_to_disk (load_tables_from_file [] [("a", "b")]) ↔
          p ∈ [("a", "b")]) := by
  intro h
  have hmem : ("a", "b") ∈ save_to_disk (load_tables_from_file [] [("a", "b")]) :=
    (h ("a", "b")).2 (by decide)
  revert hmem
  decide

/-- C2 (amended): provided every pair of the completion set C occurs in the
catalog, building rows with `checked` from membership in C and re-deriving
the completion set from the checked rows reproduces C exactly, as
order-independent set equality. -/
theorem roundtrip_save_load (boss_data : List RegionEntry)
    (completed : List (String × String))
    (hc : ∀ p ∈ completed, p ∈ catalogPairs boss_data) :
    ∀ p : String × String,
      p ∈ save_to_disk (load_tables_from_file boss_data completed) ↔
        p ∈ completed := by
  intro p
  rw [mem_save_to_disk]
  constructor
  · rintro ⟨e, he, hch, rfl⟩
    rw [load_tables_eq_map] at he
    rcases List.mem_map.1 he with ⟨q, _, rfl⟩
    simpa using hch
  · intro hp
    refine ⟨⟨p.1, p.2, decide (p ∈ completed), true⟩, ?_, by simpa using hp, rfl⟩
    rw [load_tables_eq_map]
    exact List.mem_map.2 ⟨p, hc p hp, rfl⟩

/-- Witness for C2 at a concrete input: one-region catalog and a completion
set drawn from it. -/
theorem roundtrip_save_load_witness :
    (∀ p ∈ [("Forest", "Wolf King")],
        p ∈ catalogPairs [⟨"Forest", ["Wolf King"]⟩]) ∧
      ∀ p : String × String,
        p ∈ save_to_disk
            (load_tables_from_file [⟨"Forest", ["Wolf King"]⟩]
              [("Forest", "Wolf King")]) ↔
          p ∈ [("Forest", "Wolf King")] :=
  ⟨by decide, roundtrip_save_load _ _ (by decide)⟩

/-! ## Region index -/

/-- `charListLE` is total. -/
theorem charListLE_total :
    ∀ as bs : List Char, charListLE as bs = true ∨ charListLE bs as = true
  | [], _ => Or.inl rfl
  | _ :: _, [] => Or.inr rfl
  | a :: as, b :: bs => by
    unfold charListLE
    rcases lt_trichotomy a b with h | h | h
    · left
      rw [if_pos h]
    · subst h
      simp only [lt_self_iff_false, if_false]
      exact charListLE_total as bs
    · right
      rw [if_pos h]

/-- `charListLE` is transitive. -/
theorem charListLE_trans :
    ∀ as bs cs : List Char, charListLE as bs = true → charListLE bs cs = true →
      charListLE as cs = true
  | [], _, _, _, _ => rfl
  | _ :: _, [], _, hab, _ => by simp [charListLE] at hab
  | _ :: _, _ :: _, [], _, hbc => by simp [charListLE] at hbc
  | a :: as, b :: bs, c :: cs, hab, hbc => by
    unfold charListLE at hab hbc ⊢
    rcases lt_trichotomy a b with h1 | h1 | h1
    · rcases lt_trichotomy b c with h2 | h2 | h2
      · rw [if_pos (lt_trans h1 h2)]
      · subst h2
        rw [if_pos h1]
      · rw [if_neg (lt_asymm h2), if_pos h2] at hbc
        simp at hbc
    · subst h1
      rw [if_neg (lt_irrefl a), if_neg (lt_irrefl a)] at hab
      rcases lt_trichotomy a c with h2 | h2 | h2
      · rw [if_pos h2]
      · subst h2
        rw [if_neg (lt_irrefl a), if_neg (lt_irrefl a)] at hbc ⊢
        exact charListLE_trans as bs cs hab hbc
      · rw [if_neg (lt_asymm h2), if_pos h2] at hbc
        simp at hbc
    · rw [if_neg (lt_asymm h1), if_pos h1] at hab
      simp at hab

example : extract_regions
    [⟨"Forest", "Wolf King", false, true⟩, ⟨"Cave", "Bat", false, true⟩,
      ⟨"Forest", "Bear", false, true⟩] = ["All", "Cave", "Forest"] := by decide

/-- Counterexample to C6 as stated: on a row whose region is literally "All",
the index collapses the region with the sentinel — it is ["All"], so after
removing the single "All" the remaining entries miss the region "All" that
does occur in the rows. -/
theorem region_index_cex :
    ¬ ((extract_regions [⟨"All", "x", false, true⟩]).count "All" = 1 ∧
        (∀ s, s ∈ (extract_regions [⟨"All", "x", false, true⟩]).erase "All" ↔
          s ∈ ([⟨"All", "x", false, true⟩] : List TableEntry).map
            (fun e => e.region)) ∧
        (extract_regions [⟨"All", "x", false, true⟩]).Nodup ∧
        List.Sorted strLE (extract_regions [⟨"All", "x", false, true⟩])) := by
  intro h
  have hmem := (h.2.1 "All").2 (by decide)
  revert hmem
  decide

/-- C6 (amended): the region index contains "All" exactly once, an entry
belongs to it iff it is "All" or a region occurring in the rows (so the
entries other than the single "All" are exactly the distinct non-"All"
regions), it has no duplicates, and it is sorted ascending under the
lexicographic order on strings; all of this also holds for the empty row
list. -/
theorem region_index_spec (entries : List TableEntry) :
    (extract_regions entries).count "All" = 1 ∧
      (∀ s, s ∈ extract_regions entries ↔
        s = "All" ∨ s ∈ entries.map (fun e => e.region)) ∧
      (extract_regions entries).Nodup ∧
      List.Sorted strLE (extract_regions entries) := by
  have hperm : List.Perm (extract_regions entries)
      (("All" :: entries.map (fun e => e.region)).dedup) :=
    List.perm_insertionSort _ _
  have htot : IsTotal String strLE := ⟨fun a b => charListLE_total a.data b.data⟩
  have htrans : IsTrans String strLE :=
    ⟨fun a b c => charListLE_trans a.data b.data c.data⟩
  refine ⟨?_, ?_, hperm.nodup_iff.2 (List.nodup_dedup _), ?_⟩
  · rw [hperm.count_eq]
    exact List.count_eq_one_of_mem (List.nodup_dedup _)
      (List.mem_dedup.2 (List.mem_cons_self _ _))
  · intro s
    rw [hperm.mem_iff, List.mem_dedup, List.mem_cons]
  · exact @List.sorted_insertionSort String strLE _ htot htrans _

/-! ## Config bootstrap -/

/-- Counterexample to C4 as stated: when the config file is absent and the
bootstrap write fails having written nothing (a genuine failure, the buffer
being non-empty), the error is logged — but the function then re-reads the
empty config file, the parse `.unwrap()` panics (`outcome = none`), and
startup halts without any default-valued config object. -/
theorem config_bootstrap_cex :
    0 < defaultConfigJson.length ∧
      (make_or_load_from_file none (WriteOutcome.failAfter 0)).stderrLog =
        ["io error"] ∧
      (make_or_load_from_file none (WriteOutcome.failAfter 0)).outcome = none ∧
      ¬ (make_or_load_from_file none (WriteOutcome.failAfter 0)).outcome =
          some Config.defaultConfig := by
  decide

/-- C4 (amended): on first run with the config file absent, a failure of the
default-config write is only logged to standard error at the write site and
the write error itself is not propagated — but startup halts anyway: the
bootstrap re-reads the config file, whose content is then a strict prefix of
the default JSON document, and the parse `.unwrap()` panics, so the process
never proceeds with a default-valued configuration object. -/
theorem config_bootstrap_write_failure (n : Nat)
    (h : n < defaultConfigJson.length) :
    (make_or_load_from_file none (WriteOutcome.failAfter n)).stderrLog =
        ["io error"] ∧
      (make_or_load_from_file none (WriteOutcome.failAfter n)).outcome = none := by
  refine ⟨rfl, ?_⟩
  have hall : ∀ m, m < defaultConfigJson.length →
      parseConfig (String.mk (defaultConfigJson.data.take m)) = none := by
    decide
  exact congrArg BootstrapResult.outcome rfl |>.trans (hall n h)

/-- Witness for C4 (amended) at the concrete failure point `n = 3`. -/
theorem config_bootstrap_write_failure_witness :
    3 < defaultConfigJson.length ∧
      ((make_or_load_from_file none (WriteOutcome.failAfter 3)).stderrLog =
          ["io error"] ∧
        (make_or_load_from_file none (WriteOutcome.failAfter 3)).outcome = none) :=
  ⟨by decide, config_bootstrap_write_failure 3 (by decide)⟩

end BossChecker
